import Mathlib

/-!
Verification development for the invoice field extractor (`extractor.py`).

The Python module is shallowly embedded: each Python function is translated
into an executable Lean definition with the same name where possible.  Text is
modelled as `List Char`.  Python floats are modelled as rationals (every
numeric literal the extractor manipulates is a short decimal, for which the
two agree on the comparisons the code performs).  Python regular expressions
are modelled by a small backtracking engine (`reRun`) with Python semantics:
ordered alternation, greedy quantifiers with backtracking, word boundaries,
character classes, and capture groups; each pattern of the source is
transcribed into the `RE` syntax tree next to a comment quoting the original.
ASCII inputs are assumed where Python case folding or the `\w`, `\s`, `\d`
classes would otherwise involve Unicode tables; every concrete input used in
the theorems below is ASCII.  The external `dateparser` dependency is not part
of the repository; it is modelled from the specification (see `dateparse`).
-/

abbrev Chars := List Char

/-- Whitespace as Python `str.strip` / regex `\s` treats it on ASCII text
(plus the non-breaking space, which the extractor handles explicitly). -/
def pySpaceChar (c : Char) : Bool :=
  c == ' ' || c == '\t' || c == '\n' || c == '\r' || c == '\x0b' || c == '\x0c' ||
  c == '\u00A0'

/-- Word characters for the regex `\b` boundary (ASCII fragment of `\w`). -/
def wordChar (c : Char) : Bool :=
  c.isAlphanum || c == '_'

/-- Python `str.strip()`: drop leading and trailing whitespace. -/
def pythonStrip (cs : Chars) : Chars :=
  ((cs.dropWhile pySpaceChar).reverse.dropWhile pySpaceChar).reverse

/-- Split on a separator character, keeping empty pieces (Python `str.split(sep)`). -/
def splitOnChar (sep : Char) : Chars → List Chars
  | [] => [[]]
  | c :: cs =>
    if c = sep then [] :: splitOnChar sep cs
    else
      match splitOnChar sep cs with
      | h :: t => (c :: h) :: t
      | [] => [[c]]

/-- Python `str.splitlines()` restricted to `\n` separators (the input contract
of the module says carriage returns were already stripped by the caller). -/
def pySplitlines (cs : Chars) : List Chars :=
  if cs = [] then []
  else
    let parts := splitOnChar '\n' cs
    if cs.getLast? = some '\n' then parts.dropLast else parts

/-- Python `str.lower()` (ASCII). -/
def toLowerL (cs : Chars) : Chars := cs.map Char.toLower

/-- Python `str.upper()` (ASCII). -/
def toUpperL (cs : Chars) : Chars := cs.map Char.toUpper

/-- Does `pat` occur at the start of `s`? -/
def startsWithL : Chars → Chars → Bool
  | [], _ => true
  | _ :: _, [] => false
  | p :: ps, c :: cs => p == c && startsWithL ps cs

/-- Python `sub in s`: substring containment. -/
def containsSub (pat : Chars) : Chars → Bool
  | [] => startsWithL pat []
  | c :: cs => startsWithL pat (c :: cs) || containsSub pat cs

/-- Python `s.replace(pat, "")` for a nonempty `pat`: remove every
non-overlapping occurrence, scanning left to right.  The fuel argument makes
the recursion structural; one unit per character suffices, since every step
either keeps one character or skips the nonempty `pat`. -/
def removeAllSubAux (pat : Chars) : Nat → Chars → Chars
  | 0, cs => cs
  | _, [] => []
  | fuel + 1, c :: cs =>
    if pat ≠ [] ∧ startsWithL pat (c :: cs) then
      removeAllSubAux pat fuel ((c :: cs).drop pat.length)
    else
      c :: removeAllSubAux pat fuel cs

def removeAllSub (pat cs : Chars) : Chars :=
  removeAllSubAux pat cs.length cs

/-- Substring `cs[s:e]` by character positions (Python slice). -/
def sliceL (cs : Chars) (s e : Nat) : Chars := (cs.drop s).take (e - s)

/-- Digits of a string, as a natural number (used for `int(...)` on `\d+`). -/
def natOfDigits (cs : Chars) : Nat :=
  cs.foldl (fun n c => n * 10 + (c.toNat - '0'.toNat)) 0

/-- Maximal runs of consecutive decimal digits (Python `re.findall(r"\d+", s)`). -/
def digitRuns : Chars → List Chars
  | [] => []
  | c :: cs =>
    if c.isDigit then
      match digitRuns cs with
      | r :: rs =>
        match cs with
        | d :: _ => if d.isDigit then (c :: r) :: rs else [c] :: (r :: rs)
        | [] => [c] :: rs
      | [] => [[c]]
    else digitRuns cs

/-! ## Regular-expression engine

A syntax tree for the fragment of Python `re` that `extractor.py` uses, and a
backtracking matcher with Python semantics: alternation tries the left branch
first, `star` is greedy with backtracking, `wordB` is the zero-width `\b`
assertion, `eol` is `$` without MULTILINE, and `group` records a capture span.
The matcher recurses structurally on a fuel argument; `reMatchAt` supplies
enough fuel that it can never run out (see the comment on `reRun`). -/

inductive RE where
  | eps
  | cls (p : Char → Bool)
  | seq (a b : RE)
  | alt (a b : RE)
  | star (a : RE)
  | wordB
  | eol
  | group (g : Nat) (a : RE)

abbrev Caps := List (Nat × Nat × Nat)

/-- Word-boundary test at position `pos` of `text`. -/
def atBoundary (text : Chars) (pos : Nat) : Bool :=
  let before := match text.get? (pos - 1) with
    | some c => pos ≠ 0 && wordChar c
    | none => false
  let after := match text.get? pos with
    | some c => wordChar c
    | none => false
  before != after

/-- Number of syntax nodes of a pattern (used to bound the matcher fuel). -/
def RE.size : RE → Nat
  | .eps => 1
  | .cls _ => 1
  | .seq a b => 1 + RE.size a + RE.size b
  | .alt a b => 1 + RE.size a + RE.size b
  | .star a => 1 + RE.size a
  | .wordB => 1
  | .eol => 1
  | .group _ a => 1 + RE.size a

/-- Backtracking matcher in continuation-passing style.  The continuation
receives the position and captures after the pattern; returning `none` from it
makes the matcher backtrack into earlier choice points.  The recursion is
structural on the fuel, which falls by one on every call; a star iteration
re-enters with the decremented fuel, so `(size + 1) * (length + 2)` at the
top level (see `reMatchAt`) can never run out: every descent either moves
down the syntax tree (bounded by the pattern size) or starts a new star
iteration after consuming at least one character (bounded by the remaining
text length per star node). -/
def reRun (text : Chars) : Nat → RE → Nat → Caps →
    (Nat → Caps → Option (Nat × Caps)) → Option (Nat × Caps)
  | 0, _, _, _, _ => none
  | _ + 1, .eps, pos, caps, k => k pos caps
  | _ + 1, .cls p, pos, caps, k =>
    match text.get? pos with
    | some c => if p c then k (pos + 1) caps else none
    | none => none
  | fuel + 1, .seq a b, pos, caps, k =>
    reRun text fuel a pos caps (fun p2 c2 => reRun text fuel b p2 c2 k)
  | fuel + 1, .alt a b, pos, caps, k =>
    match reRun text fuel a pos caps k with
    | some r => some r
    | none => reRun text fuel b pos caps k
  | fuel + 1, .star a, pos, caps, k =>
    match reRun text fuel a pos caps
        (fun p2 c2 => if p2 = pos then none else reRun text fuel (.star a) p2 c2 k) with
    | some r => some r
    | none => k pos caps
  | _ + 1, .wordB, pos, caps, k => if atBoundary text pos then k pos caps else none
  | _ + 1, .eol, pos, caps, k =>
    if pos = text.length ∨ (pos + 1 = text.length ∧ text.get? pos = some '\n') then
      k pos caps
    else none
  | fuel + 1, .group g a, pos, caps, k =>
    reRun text fuel a pos caps (fun p2 c2 => k p2 ((g, pos, p2) :: c2))

/-- Anchored match attempt at a single position (Python `re.match` when
`pos = 0`).  Returns the end position and the captures. -/
def reMatchAt (re : RE) (text : Chars) (pos : Nat) : Option (Nat × Caps) :=
  reRun text ((RE.size re + 1) * (text.length + 2)) re pos []
    (fun p c => some (p, c))

def reSearchAux (re : RE) (text : Chars) : Nat → Nat → Option (Nat × Nat × Caps)
  | _, 0 => none
  | pos, fuel + 1 =>
    match reMatchAt re text pos with
    | some (e, caps) => some (pos, e, caps)
    | none => reSearchAux re text (pos + 1) fuel

/-- Python `re.search` from position `start`: leftmost match. -/
def reSearchFrom (re : RE) (text : Chars) (start : Nat) : Option (Nat × Nat × Caps) :=
  reSearchAux re text start (text.length + 1 - start)

def reSearch (re : RE) (text : Chars) : Option (Nat × Nat × Caps) :=
  reSearchFrom re text 0

def reFindIterAux (re : RE) (text : Chars) : Nat → Nat → List (Nat × Nat × Caps)
  | _, 0 => []
  | pos, fuel + 1 =>
    match reSearchFrom re text pos with
    | none => []
    | some (s, e, caps) =>
      (s, e, caps) :: reFindIterAux re text (if s < e then e else e + 1) fuel

/-- Python `re.finditer`: non-overlapping matches, left to right. -/
def reFindIter (re : RE) (text : Chars) : List (Nat × Nat × Caps) :=
  reFindIterAux re text 0 (text.length + 2)

/-- Span of a numbered capture group (Python takes the most recent capture;
captures are prepended, so the first hit is the most recent). -/
def capSpan (caps : Caps) (g : Nat) : Option (Nat × Nat) :=
  (caps.find? (fun x => x.1 = g)).map (fun x => x.2)

/-- Text of a numbered capture group. -/
def capText (text : Chars) (caps : Caps) (g : Nat) : Option Chars :=
  (capSpan caps g).map (fun sp => sliceL text sp.1 sp.2)

/-- Remove the characters covered by a list of disjoint, sorted spans
(the effect of `re.sub(pat, "", s)` given the matches of `pat`). -/
def removeSpans (text : Chars) (spans : List (Nat × Nat)) : Chars :=
  (List.range text.length).filterMap (fun i =>
    if spans.any (fun sp => sp.1 ≤ i ∧ i < sp.2) then none else text.get? i)

/-- Python `re.sub(pat, "", s)`. -/
def reSubEmpty (re : RE) (text : Chars) : Chars :=
  removeSpans text ((reFindIter re text).map (fun m => (m.1, m.2.1)))

/-! Helpers for building the transcribed patterns. -/

def RE.chr (c : Char) : RE := .cls (fun x => x == c)

/-- Case-insensitive literal character (pattern compiled with `re.IGNORECASE`). -/
def RE.ichr (c : Char) : RE := .cls (fun x => x.toLower == c.toLower)

def RE.cat : List RE → RE
  | [] => .eps
  | [r] => r
  | r :: rs => .seq r (RE.cat rs)

def RE.str (s : String) : RE := RE.cat (s.data.map RE.chr)

def RE.istr (s : String) : RE := RE.cat (s.data.map RE.ichr)

def RE.opt (a : RE) : RE := .alt a .eps

/-- Exactly `n` copies: the regex `a{n}`. -/
def RE.repExact (a : RE) : Nat → RE
  | 0 => .eps
  | n + 1 => .seq a (RE.repExact a n)

/-- Greedily up to `n` copies: the regex `a{0,n}` (longer attempts first). -/
def RE.repUpTo (a : RE) : Nat → RE
  | 0 => .eps
  | n + 1 => .alt (.seq a (RE.repUpTo a n)) .eps

/-- The regex `a{lo,hi}`, greedy. -/
def RE.repRange (a : RE) (lo hi : Nat) : RE :=
  .seq (RE.repExact a lo) (RE.repUpTo a (hi - lo))

/-- The regex `a+`, greedy. -/
def RE.plus (a : RE) : RE := .seq a (.star a)

/-! ## Patterns of `extractor.py`, transcribed -/

/-- Class `[$€£₹¥]` (`CURRENCY_SYMS`). -/
def currencySymChar (c : Char) : Bool :=
  c == '$' || c == '€' || c == '£' || c == '₹' || c == '¥'

/-- Class `[-−]` for the sign group (ASCII hyphen or U+2212 minus). -/
def signChar (c : Char) : Bool := c == '-' || c == '−'

def digitCls : RE := .cls Char.isDigit

def spaceCls : RE := .cls pySpaceChar

/-- Ordered alternation `USD|EUR|INR|GBP|AUD|CAD|JPY` (IGNORECASE). -/
def codeAlts : RE :=
  .alt (RE.istr "USD") (.alt (RE.istr "EUR") (.alt (RE.istr "INR")
    (.alt (RE.istr "GBP") (.alt (RE.istr "AUD") (.alt (RE.istr "CAD") (RE.istr "JPY"))))))

/-- Numeric body of `AMOUNT_RE`:
`\d{1,3}(?:[,.\s]\d{3})*|\d+(?:[.,]\d+)?`. -/
def amtBody : RE :=
  .alt
    (.seq (RE.repRange digitCls 1 3)
      (.star (.seq (.cls (fun c => c == ',' || c == '.' || pySpaceChar c))
        (RE.repExact digitCls 3))))
    (.seq (RE.plus digitCls)
      (RE.opt (.seq (.cls (fun c => c == '.' || c == ','))
        (RE.plus digitCls))))

/-- `AMOUNT_RE`:
`(?P<sign>[-−])?\s*(?P<sym>[$€£₹¥])?\s*(?P<amt>\d{1,3}(?:[,.\s]\d{3})*|\d+(?:[.,]\d+)?)\s*(?P<code>\b(?:USD|EUR|INR|GBP|AUD|CAD|JPY)\b)?`
with IGNORECASE.  Groups: 1 = sign, 2 = sym, 3 = amt, 4 = code. -/
def amountRE : RE :=
  RE.cat
    [ RE.opt (.group 1 (.cls signChar))
    , .star spaceCls
    , RE.opt (.group 2 (.cls currencySymChar))
    , .star spaceCls
    , .group 3 amtBody
    , .star spaceCls
    , RE.opt (.group 4 (RE.cat [.wordB, codeAlts, .wordB]))
    ]

/-- `DATE_RE`:
`\b(?:(?:\d{1,2}S\d{1,2}S\d{2,4})|(?:\d{4}S\d{1,2}S\d{1,2})|(?:[A-Za-z]{3,9}\s+\d{1,2},\s*\d{4}))\b`
where `S` stands for the source class holding a slash and a hyphen (spelled
here by a letter to avoid comment syntax). -/
def dateRE : RE :=
  let sep : RE := .cls (fun c => c == '/' || c == '-')
  let shapeA := RE.cat [RE.repRange digitCls 1 2, sep, RE.repRange digitCls 1 2, sep,
    RE.repRange digitCls 2 4]
  let shapeB := RE.cat [RE.repExact digitCls 4, sep, RE.repRange digitCls 1 2, sep,
    RE.repRange digitCls 1 2]
  let shapeC := RE.cat [RE.repRange (.cls Char.isAlpha) 3 9, RE.plus spaceCls,
    RE.repRange digitCls 1 2, RE.chr ',', .star spaceCls, RE.repExact digitCls 4]
  RE.cat [.wordB, .alt shapeA (.alt shapeB shapeC), .wordB]

/-- `INVOICE_RE`:
`\b(?:Invoice|Invoice #|Invoice No|Inv|INV)[\s:]*([A-Z0-9\-\_/]+)` with IGNORECASE. -/
def invoiceRE : RE :=
  RE.cat
    [ .wordB
    , .alt (RE.istr "Invoice") (.alt (RE.istr "Invoice #") (.alt (RE.istr "Invoice No")
        (.alt (RE.istr "Inv") (RE.istr "INV"))))
    , .star (.cls (fun c => pySpaceChar c || c == ':'))
    , .group 1 (RE.plus (.cls (fun c =>
        c.isUpper || c.isLower || c.isDigit || c == '-' || c == '_' || c == '/')))
    ]

/-- Fallback invoice pattern `\b(INV[-\d/]+)\b` with IGNORECASE. -/
def invFallbackRE : RE :=
  RE.cat
    [ .wordB
    , .group 1 (.seq (RE.istr "INV")
        (RE.plus (.cls (fun c => c == '-' || c.isDigit || c == '/'))))
    , .wordB
    ]

/-- `PHONE_RE`: `\+?\d[\d\s\-\(\)]{6,}\d`. -/
def phoneRE : RE :=
  let mid : RE := .cls (fun c => c.isDigit || pySpaceChar c || c == '-' || c == '(' || c == ')')
  RE.cat [RE.opt (RE.chr '+'), digitCls, RE.repExact mid 6, .star mid, digitCls]

/-- Company-keyword pattern of `extract_vendor`:
`\b(Ltd|Ltd\.|Solutions|Inc|Inc\.|Co\.|Corporation|LLP|LLC|GLOBAL|CORP|SOLUTIONS)\b`
with IGNORECASE. -/
def companyRE : RE :=
  RE.cat
    [ .wordB
    , .group 1 (.alt (RE.istr "Ltd") (.alt (RE.istr "Ltd.") (.alt (RE.istr "Solutions")
        (.alt (RE.istr "Inc") (.alt (RE.istr "Inc.") (.alt (RE.istr "Co.")
        (.alt (RE.istr "Corporation") (.alt (RE.istr "LLP") (.alt (RE.istr "LLC")
        (.alt (RE.istr "GLOBAL") (.alt (RE.istr "CORP") (RE.istr "SOLUTIONS"))))))))))))
    , .wordB
    ]

/-- Pipe-tail pattern of `extract_vendor`: `\s*\|.*$`. -/
def pipeTailRE : RE :=
  RE.cat [.star spaceCls, RE.chr '|', .star (.cls (fun c => c ≠ '\n')), .eol]

/-- Phone-removal pattern of `extract_vendor`: `Phone[:\s]*\+?\d[0-9\-\s\(\)]*`
(case-sensitive). -/
def phoneSubRE : RE :=
  RE.cat
    [ RE.str "Phone"
    , .star (.cls (fun c => c == ':' || pySpaceChar c))
    , RE.opt (RE.chr '+')
    , digitCls
    , .star (.cls (fun c => c.isDigit || c == '-' || pySpaceChar c || c == '(' || c == ')'))
    ]

/-- Thousands test of `parse_amount_text`: `,\d{3}\b`. -/
def thousandsRE : RE :=
  RE.cat [RE.chr ',', RE.repExact digitCls 3, .wordB]

/-- Two-decimal test of the noise filter: `[,\.]\d{2}\b`. -/
def twoDecRE : RE :=
  RE.cat [.cls (fun c => c == ',' || c == '.'), RE.repExact digitCls 2, .wordB]

/-- ISO-shape test of the date resolver: `\d{4}-\d{1,2}-\d{1,2}` (used with
`re.match`, so anchored at the start of the span). -/
def isoShapeRE : RE :=
  RE.cat [RE.repExact digitCls 4, RE.chr '-', RE.repRange digitCls 1 2, RE.chr '-',
    RE.repRange digitCls 1 2]

/-! ## Numeric parsing (`parse_amount_text`) -/

/-- Python `float(s)` restricted to the alphabet `[0-9.\-]` that survives the
stripping step of `parse_amount_text`: an optional leading minus, then either
`digits`, `digits.digits?`, or `.digits`.  Anything else fails.  The value is
returned as an exact rational. -/
def pyFloat (cs : Chars) : Option ℚ :=
  let (neg, rest) :=
    match cs with
    | '-' :: r => (true, r)
    | r => (false, r)
  let ip := rest.takeWhile Char.isDigit
  let r2 := rest.drop ip.length
  let body : Option ℚ :=
    match r2 with
    | [] => if ip = [] then none else some (mkRat (natOfDigits ip) 1)
    | '.' :: fr =>
      if fr.all Char.isDigit ∧ (ip ≠ [] ∨ fr ≠ []) then
        some (mkRat (natOfDigits ip * 10 ^ fr.length + natOfDigits fr) (10 ^ fr.length))
      else none
    | _ => none
  body.map (fun v => if neg then -v else v)

/-- Index of the last occurrence of `c` (defined only when present; callers
guard with `contains`). -/
def lastIdxOf (cs : Chars) (c : Char) : Nat :=
  cs.enum.foldl (fun acc p => if p.2 = c then p.1 else acc) 0

/-- Translation of `parse_amount_text` (extractor.py lines 48-74): normalize
thousands/decimal separators, strip everything but digits, dot and minus, and
convert; any failure yields `none`. -/
def parse_amount_text (amt_text : Chars) : Option ℚ :=
  if amt_text = [] then none
  else
    -- remove spaces, non-breaking spaces
    let s := amt_text.filter (fun c => ¬(c = '\u00A0' ∨ c = ' '))
    let s :=
      if s.contains ',' ∧ s.contains '.' then
        if lastIdxOf s ',' < lastIdxOf s '.' then
          -- "1,234.56" typical: remove commas
          s.filter (· ≠ ',')
        else
          -- "1.234,56": remove dots, replace comma with dot
          (s.filter (· ≠ '.')).map (fun c => if c = ',' then '.' else c)
      else
        if s.contains ',' ∧ (reSearch thousandsRE s).isSome then
          s.filter (· ≠ ',')
        else
          s.map (fun c => if c = ',' then '.' else c)
    let s := s.filter (fun c => c.isDigit ∨ c = '.' ∨ c = '-')
    pyFloat s

/-- Strip the thousands separator `thou` and turn the decimal separator
`dec` into a dot (used by the specification-side normalizer below). -/
def sepSubst (thou dec : Char) (s : Chars) : Chars :=
  (s.filter (· ≠ thou)).map (fun c => if c = dec then '.' else c)

/-- Specification-side normalizer, written from the sentences of the spec
(section 4.1): when both separators occur, the one occurring last is the
decimal point and the other is stripped as a thousands separator; when only a
comma occurs, it is stripped when the token matches `,ddd` at a word boundary
and otherwise becomes the decimal point; all remaining characters other than
digits, dot and minus are stripped before conversion, and conversion failure
yields an absent value. -/
def parse_amount_spec (amt_text : Chars) : Option ℚ :=
  if amt_text = [] then none
  else
    let s := amt_text.filter (fun c => ¬(c = '\u00A0' ∨ c = ' '))
    let s :=
      if s.contains ',' ∧ s.contains '.' then
        -- the separator occurring last is the decimal point
        if lastIdxOf s ',' < lastIdxOf s '.' then sepSubst ',' '.' s
        else sepSubst '.' ',' s
      else if s.contains ',' then
        if (reSearch thousandsRE s).isSome then s.filter (· ≠ ',')
        else s.map (fun c => if c = ',' then '.' else c)
      else s
    let s := s.filter (fun c => c.isDigit ∨ c = '.' ∨ c = '-')
    pyFloat s

/-! ## Amount candidates (`find_amounts_with_context`) -/

/-- Amount labels inferred from the line (`"subtotal"`, `"tax"`, `"total_due"`). -/
inductive Lbl where
  | subtotal
  | tax
  | total_due
deriving DecidableEq, Repr

/-- One amount candidate, mirroring the dict built in
`find_amounts_with_context`. -/
structure Cand where
  amount : ℚ
  currency : Option Chars
  raw : Chars
  context : Chars
  line : Chars
  label : Option Lbl
deriving DecidableEq, Repr

/-- Translation of `detect_currency` (extractor.py lines 77-87). -/
def detect_currency (sym : Option Char) (code : Option Chars) (raw : Chars) :
    Option Chars :=
  match code with
  | some c => some (toUpperL c)
  | none =>
    match sym with
    | some s =>
      if s = '$' then some "USD".data
      else if s = '€' then some "EUR".data
      else if s = '£' then some "GBP".data
      else if s = '₹' then some "INR".data
      else if s = '¥' then some "JPY".data
      else none
    | none =>
      -- try detection by letters in raw, `\b(USD|EUR|INR|GBP|AUD|CAD|JPY)\b` IGNORECASE
      match reSearch (RE.cat [.wordB, .group 1 codeAlts, .wordB]) raw with
      | some m => (capText raw m.2.2 1).map toUpperL
      | none => none

/-- Translation of `text_to_lines` (extractor.py lines 90-99). -/
def text_to_lines (text : Chars) : List Chars :=
  ((pySplitlines text).map pythonStrip).filter (· ≠ [])

/-- Label guess by substring search on the lowercased line
(extractor.py lines 129-136). -/
def labelOf (ln : Chars) : Option Lbl :=
  let low := toLowerL ln
  if containsSub "subtotal".data low then some .subtotal
  else if containsSub "tax".data low then some .tax
  else if containsSub "total".data low ∧ containsSub "due".data low then some .total_due
  else none

/-- Processing of a single `AMOUNT_RE` match of line `ln` (index `i`) inside
the scan loop of `find_amounts_with_context` (extractor.py lines 108-149);
`none` models `continue`. -/
def candOfMatch (lines : List Chars) (i : Nat) (ln : Chars)
    (s e : Nat) (caps : Caps) : Option Cand :=
  let raw := sliceL ln s e
  let sign := (capText ln caps 1).getD []
  let sym := (capText ln caps 2).bind List.head?
  let code := capText ln caps 4
  let amt_text := (capText ln caps 3).getD []
  -- skip if this looks like phone or account, unless a currency marker exists
  if (sym = none ∧ code = none) ∧
      ((raw.filter Char.isDigit).length > 10 ∧ reSearch twoDecRE raw = none) then
    none
  else
    match parse_amount_text (sign ++ amt_text) with
    | none => none
    | some value =>
      let currency := detect_currency sym code raw
      let prev := (lines.get? (i - 1)).getD []
      let context :=
        if 0 < i ∧ reSearch amountRE prev = none then prev ++ " | ".data ++ ln
        else ln
      let label := labelOf ln
      -- filter tiny numbers that are probably counts, unless currency present
      if |value| < 3 ∧ label = none ∧ currency = none then none
      else
        some { amount := value, currency := currency, raw := pythonStrip raw,
               context := pythonStrip context, line := ln, label := label }

/-- The `found` list of `find_amounts_with_context`: every match of every
line, processed in scan order. -/
def find_amounts_found (text : Chars) : List Cand :=
  let lines := text_to_lines text
  lines.enum.flatMap (fun p =>
    (reFindIter amountRE p.2).filterMap (fun m =>
      candOfMatch lines p.1 p.2 m.1 m.2.1 m.2.2))

/-- Python-style order-preserving deduplication by a key (the `seen`-set loop
used twice by the extractor). -/
def pythonDedupBy {α β : Type} [DecidableEq β] (key : α → β) : List α → List β → List α
  | [], _ => []
  | x :: xs, seen =>
    if key x ∈ seen then pythonDedupBy key xs seen
    else x :: pythonDedupBy key xs (key x :: seen)

/-- Deduplication key of `find_amounts_with_context`:
`(amount, currency, raw, context[:60])`. -/
def candKey (c : Cand) : ℚ × Option Chars × Chars × Chars :=
  (c.amount, c.currency, c.raw, c.context.take 60)

/-- The deduplicated candidate list, before sorting. -/
def find_amounts_dedup (text : Chars) : List Cand :=
  pythonDedupBy candKey (find_amounts_found text) []

/-- Translation of `score_item` (extractor.py lines 160-166): sequential
conditionals on the label. -/
def score_item (it : Cand) : Int :=
  let s : Int := 0
  let s := if it.label = some .subtotal then s - 100 else s
  let s := if it.label = some .tax then s - 90 else s
  let s := if it.label = some .total_due then s - 110 else s
  s

/-- Stable insertion implementing Python sorting: the incoming element `x`
passes an already-placed element `y` only when `y` strictly precedes `x`
under `lt`; ties keep `x` (the earlier element of the original list) first. -/
def pyInsert {α : Type} (lt : α → α → Prop) [DecidableRel lt] (x : α) :
    List α → List α
  | [] => [x]
  | y :: ys => if lt y x then y :: pyInsert lt x ys else x :: y :: ys

/-- Stable sort implementing Python `list.sort` / `sorted`: extensionally, a
stable sort is unique, so insertion sort is a faithful model. -/
def pySortBy {α : Type} (lt : α → α → Prop) [DecidableRel lt] : List α → List α
  | [] => []
  | x :: l => pyInsert lt x (pySortBy lt l)

/-- Translation of `find_amounts_with_context` (extractor.py lines 102-168):
scan, deduplicate, then `dedup.sort(key=score_item)` (stable, ascending). -/
def find_amounts_with_context (text : Chars) : List Cand :=
  pySortBy (fun y x => score_item y < score_item x) (find_amounts_dedup text)

/-! ## Totals (`find_totals`) -/

structure Totals where
  subtotal : Option ℚ
  tax : Option ℚ
  total_due : Option ℚ
deriving DecidableEq, Repr

/-- One step of the label-assignment loop of `find_totals`. -/
def totalsStep (t : Totals) (a : Cand) : Totals :=
  match a.label with
  | some .subtotal => { t with subtotal := some a.amount }
  | some .tax => { t with tax := some a.amount }
  | some .total_due => { t with total_due := some a.amount }
  | none => t

/-- The label-assignment loop of `find_totals`. -/
def totalsAssign (amounts : List Cand) : Totals :=
  amounts.foldl totalsStep ⟨none, none, none⟩

/-- Translation of `find_totals` (extractor.py lines 248-262): labeled
assignment, then the magnitude fallback
`sorted(amounts, key=lambda x: abs(x["amount"]), reverse=True)[0]`. -/
def find_totals (amounts : List Cand) : Totals :=
  let totals := totalsAssign amounts
  if totals.total_due = none ∧ amounts ≠ [] then
    let by_amount := pySortBy (fun y x => |x.amount| < |y.amount|) amounts
    { totals with total_due := by_amount.head?.map (·.amount) }
  else totals

/-! ## Dates (`parse_dates_and_labels`) -/

/-- A calendar date as produced by the date parser. -/
structure Date where
  year : Nat
  month : Nat
  day : Nat
deriving DecidableEq, Repr

/-- Zero-padded rendering of a number. -/
def padNum (width n : Nat) : Chars :=
  let ds := (toString n).data
  List.replicate (width - ds.length) '0' ++ ds

/-- Python `datetime.date.isoformat()`: `YYYY-MM-DD`. -/
def isoFmt (d : Date) : Chars :=
  padNum 4 d.year ++ ['-'] ++ padNum 2 d.month ++ ['-'] ++ padNum 2 d.day

/-- English month names accepted for the named-month date shape: a prefix of
at least three letters of a month name identifies the month. -/
def monthOfName (w : Chars) : Option Nat :=
  let lw := toLowerL w
  let names : List (Nat × String) :=
    [(1, "january"), (2, "february"), (3, "march"), (4, "april"), (5, "may"),
     (6, "june"), (7, "july"), (8, "august"), (9, "september"), (10, "october"),
     (11, "november"), (12, "december")]
  (names.find? (fun p => (3 ≤ lw.length ∨ lw = "may".data) ∧ startsWithL lw p.2.data)).map
    (·.1)

/-- Modelled from the spec: the raw-span parsing that `extractor.py` delegates
to the external `dateparser` library (`dateparser.parse(raw, settings=...)`
with `DATE_ORDER` `"DMY"` or `"MDY"`), which is not part of this repository.
Following spec section 4.2, the three `DATE_RE` shapes are parsed: a numeric
span whose first group has four digits is taken as year-month-day under either
order setting; an other numeric span `d1 sep d2 sep y` takes `d1` as the day
under day-first order and as the month otherwise (two-digit years are mapped
into the 2000s); a named-month span is order-independent.  A month outside
1..12 or a day outside 1..31 fails, and a failing parse is `none`. -/
def dateparse (dayFirst : Bool) (raw : Chars) : Option Date :=
  let valid : Nat → Nat → Nat → Option Date := fun y m d =>
    if 1 ≤ m ∧ m ≤ 12 ∧ 1 ≤ d ∧ d ≤ 31 then some ⟨y, m, d⟩ else none
  if raw.any Char.isAlpha then
    let name := raw.takeWhile Char.isAlpha
    match monthOfName name, digitRuns raw with
    | some m, [d, y] => valid (natOfDigits y) m (natOfDigits d)
    | _, _ => none
  else
    match digitRuns raw with
    | [a, b, c] =>
      if a.length = 4 then valid (natOfDigits a) (natOfDigits b) (natOfDigits c)
      else
        let y := natOfDigits c
        let y := if y < 100 then 2000 + y else y
        if dayFirst then valid y (natOfDigits b) (natOfDigits a)
        else valid y (natOfDigits a) (natOfDigits b)
    | _ => none

/-- Translation of the parse-choice logic of `parse_dates_and_labels`
(extractor.py lines 175-201): `dt1` is the day-first parse, `dt2` the
month-first parse. -/
def chooseDate (raw : Chars) (dt1 dt2 : Option Date) : Option Date :=
  match dt1, dt2 with
  | some d1, none => some d1
  | none, some d2 => some d2
  | some d1, some d2 =>
    if d1 = d2 then some d1
    else
      -- prefer ISO-like format, else the day-over-12 heuristic, else dt1
      if (reMatchAt isoShapeRE raw 0).isSome then some d1
      else
        let parts := digitRuns raw
        match parts with
        | p :: _ => if 12 < natOfDigits p then some d1 else some d1
        | [] => some d1
  | none, none => none

/-- Resolution of one matched span: parse twice and choose
(the body of the loop in extractor.py lines 174-202). -/
def resolveSpan (raw : Chars) : Option Date :=
  chooseDate raw (dateparse true raw) (dateparse false raw)

/-- The labels dictionary of `parse_dates_and_labels`.  A slot holds the
assigned iso value, which in the source may itself be `None`; `other_dates`
accumulates the unlabeled ones. -/
structure DateLabels where
  issue_date : Option Chars
  due_date : Option Chars
  delivery_date : Option Chars
  other_dates : List (Option Chars)
deriving DecidableEq, Repr

/-- The context window of a date match: 40 characters on both sides,
lowercased (extractor.py lines 204-206). -/
def dateWindow (text : Chars) (s e : Nat) : Chars :=
  toLowerL (sliceL text (s - 40) (min (e + 40) text.length))

/-- One iteration of the date loop: resolve the span and assign the label
slot selected by the window (extractor.py lines 174-214).  Note that the
assignment overwrites whatever the slot held. -/
def dateStep (text : Chars) (st : DateLabels) (sp : Nat × Nat) : DateLabels :=
  let raw := sliceL text sp.1 sp.2
  let iso := (resolveSpan raw).map isoFmt
  let window := dateWindow text sp.1 sp.2
  if containsSub "issue".data window ∨ containsSub "issued".data window then
    { st with issue_date := iso }
  else if containsSub "due".data window then
    { st with due_date := iso }
  else if containsSub "delivery".data window ∨ containsSub "deliv".data window then
    { st with delivery_date := iso }
  else
    { st with other_dates := st.other_dates ++ [iso] }

/-- The spans produced by `DATE_RE.finditer(text)`. -/
def dateSpans (text : Chars) : List (Nat × Nat) :=
  (reFindIter dateRE text).map (fun m => (m.1, m.2.1))

/-- Translation of `parse_dates_and_labels` (extractor.py lines 171-215). -/
def parse_dates_and_labels (text : Chars) : DateLabels :=
  (dateSpans text).foldl (dateStep text) ⟨none, none, none, []⟩

/-! ## Vendor and invoice number -/

/-- Translation of `extract_vendor` (extractor.py lines 218-234). -/
def extract_vendor (text : Chars) : Option Chars :=
  let lines := ((pySplitlines text).map pythonStrip).filter (· ≠ [])
  let top := lines.take 8
  match top.find? (fun ln => (reSearch companyRE ln).isSome) with
  | some ln =>
    -- sanitize: remove pipe-delimited tail and phone-like parts
    let candidate := pythonStrip (reSubEmpty pipeTailRE ln)
    let candidate := pythonStrip (reSubEmpty phoneSubRE candidate)
    some candidate
  | none =>
    -- fallback: first line with at least two capitalized words, under 60 chars
    -- (`ln.split()` is the whitespace split with empty pieces discarded)
    top.find? (fun ln =>
      2 ≤ (((ln.splitOnP pySpaceChar).filter (· ≠ [])).filter
             (fun w => (w.head?.map Char.isUpper).getD false)).length ∧
      ln.length < 60)

/-- Translation of `extract_invoice_number` (extractor.py lines 237-245). -/
def extract_invoice_number (text : Chars) : Option Chars :=
  match reSearch invoiceRE text with
  | some m => (capText text m.2.2 1).map pythonStrip
  | none =>
    match reSearch invFallbackRE text with
    | some m => capText text m.2.2 1
    | none => none

/-! ## Line items and the top-level record (`extract_fields`) -/

/-- A row of the output `amounts` list. -/
structure Item where
  amount : ℚ
  currency : Option Chars
  raw : Chars
  description : Option Chars
  label : Option Lbl
  context : Chars
deriving DecidableEq, Repr

/-- First span starting at an alphabetic character, up to 60 further
characters: `re.search(r"([A-Za-z].{0,60})", ctx)` followed by `.strip()`
(the context never holds a newline, so the greedy `.{0,60}` takes up to 60
characters). -/
def descSearch (ctx : Chars) : Option Chars :=
  match ctx with
  | [] => none
  | c :: cs =>
    if c.isAlpha then some (pythonStrip ((c :: cs).take 61))
    else descSearch cs

/-- The description heuristic of the items loop
(extractor.py lines 293-326). -/
def itemOf (a : Cand) : Item :=
  let line_no_raw := pythonStrip (removeAllSub a.raw a.line)
  let desc : Option Chars :=
    if line_no_raw.any Char.isAlpha then some line_no_raw
    else
      let ctx := a.context
      let fromPipe : Option Chars :=
        if ctx.contains '|' then
          (((splitOnChar '|' ctx).map pythonStrip).filter (· ≠ [])).find?
            (·.any Char.isAlpha)
        else none
      match fromPipe with
      | some d => some d
      | none => descSearch ctx
  { amount := a.amount, currency := a.currency, raw := a.raw,
    description := desc, label := a.label, context := a.context }

/-- Final deduplication key: `(amount, lowercased description or "")`. -/
def itemKey (it : Item) : ℚ × Chars :=
  (it.amount, toLowerL (it.description.getD []))

/-- The post-filter of `extract_fields` (lines 277-287): drop candidates
whose raw text is phone-shaped or holds more than 12 digits and that carry
no currency. -/
def cleanPred (a : Cand) : Bool :=
  ¬((reSearch phoneRE a.raw).isSome ∧ a.currency = none) ∧
  ¬(12 < (a.raw.filter Char.isDigit).length ∧ a.currency = none)

def clean_amounts (t : Chars) : List Cand :=
  (find_amounts_with_context t).filter cleanPred

def final_items (t : Chars) : List Item :=
  pythonDedupBy itemKey ((clean_amounts t).map itemOf) []

/-- The record assembled for nonblank input (extractor.py lines 338-344). -/
structure ExtractRec where
  vendor : Option Chars
  invoice : Option Chars
  dates : DateLabels
  amounts : List Item
  totals : Totals
deriving DecidableEq, Repr

/-- Body of `extract_fields` on stripped, nonblank text. -/
def extract_core (t : Chars) : ExtractRec :=
  { vendor := extract_vendor t
  , invoice := extract_invoice_number t
  , dates := parse_dates_and_labels t
  , amounts := final_items t
  , totals := find_totals (clean_amounts t) }

/-- The return value of `extract_fields`: either the empty dict `{}` (blank
input) or the structurally complete record. -/
inductive ExtractOut where
  | emptyDict
  | record (r : ExtractRec)
deriving DecidableEq, Repr

/-- Translation of `extract_fields` (extractor.py lines 265-344): strip the
input; blank input short-circuits to the empty dict `{}`. -/
def extract_fields (text : String) : ExtractOut :=
  let t := pythonStrip text.data
  if t = [] then .emptyDict else .record (extract_core t)

/-- Is the result a structurally complete record (a dict carrying the five
fields vendor, invoice, dates, amounts, totals)? -/
def isRecord : ExtractOut → Bool
  | .emptyDict => false
  | .record _ => true

/-- Python `result.get("vendor")`. -/
def getVendor : ExtractOut → Option Chars
  | .emptyDict => none
  | .record r => r.vendor

/-- Python `result.get("invoice")`. -/
def getInvoice : ExtractOut → Option Chars
  | .emptyDict => none
  | .record r => r.invoice

/-- Python `result.get("dates")`. -/
def getDates : ExtractOut → Option DateLabels
  | .emptyDict => none
  | .record r => some r.dates

/-- Python `result.get("amounts", [])`. -/
def getAmounts : ExtractOut → List Item
  | .emptyDict => []
  | .record r => r.amounts

/-- Python `result.get("totals")`. -/
def getTotals : ExtractOut → Option Totals
  | .emptyDict => none
  | .record r => some r.totals

/-! ## Definitions supporting the claim statements -/

/-- Candidates of `l` carrying exactly label `lab`, in order. -/
def labFilter (l : List Cand) (lab : Option Lbl) : List Cand :=
  l.filter (fun c => c.label = lab)

/-- The output order asserted by the spec sentence behind claim C5: labeled
candidates first in the priority order total_due, then tax, then subtotal,
then the unlabeled ones in scan order. -/
def c5ClaimOrder (text : Chars) : List Cand :=
  let dd := find_amounts_dedup text
  labFilter dd (some .total_due) ++ labFilter dd (some .tax) ++
    labFilter dd (some .subtotal) ++ labFilter dd none

/-- Resolved iso string of a date span of `text`. -/
def isoOf (text : Chars) (sp : Nat × Nat) : Option Chars :=
  (resolveSpan (sliceL text sp.1 sp.2)).map isoFmt

/-- Does the window of this span select the issue slot? -/
def selIssue (text : Chars) (sp : Nat × Nat) : Bool :=
  containsSub "issue".data (dateWindow text sp.1 sp.2) ||
  containsSub "issued".data (dateWindow text sp.1 sp.2)

/-- Does the window select the due slot (the elif branch)? -/
def selDue (text : Chars) (sp : Nat × Nat) : Bool :=
  !selIssue text sp && containsSub "due".data (dateWindow text sp.1 sp.2)

/-- Does the window select the delivery slot? -/
def selDeliv (text : Chars) (sp : Nat × Nat) : Bool :=
  !selIssue text sp && !containsSub "due".data (dateWindow text sp.1 sp.2) &&
  (containsSub "delivery".data (dateWindow text sp.1 sp.2) ||
   containsSub "deliv".data (dateWindow text sp.1 sp.2))

/-- Does the match fall through to `other_dates`? -/
def selOther (text : Chars) (sp : Nat × Nat) : Bool :=
  !selIssue text sp && !selDue text sp && !selDeliv text sp

/-! ## Helper lemmas -/

theorem dropWhile_eq_nil_of_all {p : Char → Bool} {l : Chars}
    (h : ∀ c ∈ l, p c = true) : l.dropWhile p = [] := by
  induction l with
  | nil => rfl
  | cons c cs ih =>
    rw [List.dropWhile_cons]
    simp only [h c (List.mem_cons_self c cs), if_true]
    exact ih (fun x hx => h x (List.mem_cons_of_mem c hx))

theorem pythonStrip_eq_nil_of_all {l : Chars} (h : ∀ c ∈ l, pySpaceChar c = true) :
    pythonStrip l = [] := by
  unfold pythonStrip
  rw [dropWhile_eq_nil_of_all h]
  rfl

theorem mem_pyInsert {α : Type} (lt : α → α → Prop) [DecidableRel lt] (x a : α)
    (l : List α) : x ∈ pyInsert lt a l ↔ x = a ∨ x ∈ l := by
  induction l with
  | nil => simp [pyInsert]
  | cons y ys ih =>
    rw [pyInsert]
    split
    · simp only [List.mem_cons, ih]
      tauto
    · simp [List.mem_cons]

theorem mem_pySortBy {α : Type} (lt : α → α → Prop) [DecidableRel lt] (x : α)
    (l : List α) : x ∈ pySortBy lt l ↔ x ∈ l := by
  induction l with
  | nil => rfl
  | cons a as ih =>
    rw [pySortBy, mem_pyInsert, ih, List.mem_cons]

theorem mem_pythonDedupBy {α β : Type} [DecidableEq β] (key : α → β) (x : α) :
    ∀ (l : List α) (seen : List β), x ∈ pythonDedupBy key l seen → x ∈ l := by
  intro l
  induction l with
  | nil => intro seen h; exact absurd h (List.not_mem_nil x)
  | cons a as ih =>
    intro seen h
    rw [pythonDedupBy] at h
    split at h
    · exact List.mem_cons_of_mem a (ih _ h)
    · rcases List.mem_cons.mp h with h | h
      · exact h ▸ List.mem_cons_self a as
      · exact List.mem_cons_of_mem a (ih _ h)

theorem pyInsert_eq_cons {α : Type} (lt : α → α → Prop) [DecidableRel lt] (a : α)
    {l : List α} (h : ∀ y ∈ l, ¬ lt y a) : pyInsert lt a l = a :: l := by
  cases l with
  | nil => rfl
  | cons y ys =>
    rw [pyInsert, if_neg (h y (List.mem_cons_self y ys))]

theorem pyInsert_append {α : Type} (lt : α → α → Prop) [DecidableRel lt] (a : α)
    {A : List α} (L : List α) (h : ∀ y ∈ A, lt y a) :
    pyInsert lt a (A ++ L) = A ++ pyInsert lt a L := by
  induction A with
  | nil => rfl
  | cons y ys ih =>
    rw [List.cons_append, pyInsert, if_pos (h y (List.mem_cons_self y ys)),
      ih (fun x hx => h x (List.mem_cons_of_mem y hx)), List.cons_append]

theorem score_item_eq (c : Cand) :
    score_item c = match c.label with
      | some .total_due => (-110 : Int)
      | some .subtotal => -100
      | some .tax => -90
      | none => 0 := by
  rcases h : c.label with _ | lbl
  · simp [score_item, h]
  · cases lbl <;> simp [score_item, h]

theorem label_of_mem_labFilter {l : List Cand} {lab : Option Lbl} {y : Cand}
    (h : y ∈ labFilter l lab) : y.label = lab :=
  of_decide_eq_true (List.mem_filter.mp h).2

theorem labFilter_cons (a : Cand) (l : List Cand) (lab : Option Lbl) :
    labFilter (a :: l) lab =
      if a.label = lab then a :: labFilter l lab else labFilter l lab := by
  unfold labFilter
  rw [List.filter_cons]
  split
  · rw [if_pos (of_decide_eq_true (by assumption))]
  · rw [if_neg (by simp_all)]

/-- Stable sorting by `score_item` groups the four label classes in the order
total_due, subtotal, tax, unlabeled, preserving scan order inside each class
(this is exactly what a stable ascending sort does on the four key values
-110, -100, -90, 0). -/
theorem pySort_label_classes (l : List Cand) :
    pySortBy (fun y x => score_item y < score_item x) l =
      labFilter l (some .total_due) ++ labFilter l (some .subtotal) ++
      labFilter l (some .tax) ++ labFilter l none := by
  induction l with
  | nil => rfl
  | cons a l ih =>
    have sTD : ∀ y ∈ labFilter l (some .total_due), score_item y = -110 := by
      intro y hy; rw [score_item_eq, label_of_mem_labFilter hy]
    have sSUB : ∀ y ∈ labFilter l (some .subtotal), score_item y = -100 := by
      intro y hy; rw [score_item_eq, label_of_mem_labFilter hy]
    have sTAX : ∀ y ∈ labFilter l (some .tax), score_item y = -90 := by
      intro y hy; rw [score_item_eq, label_of_mem_labFilter hy]
    have sNONE : ∀ y ∈ labFilter l none, score_item y = 0 := by
      intro y hy; rw [score_item_eq, label_of_mem_labFilter hy]
    rw [pySortBy, ih]
    simp only [List.append_assoc]
    rcases hl : a.label with _ | lbl
    · have ha : score_item a = 0 := by rw [score_item_eq, hl]
      rw [pyInsert_append _ a _ (by intro y hy; have := sTD y hy; omega),
        pyInsert_append _ a _ (by intro y hy; have := sSUB y hy; omega),
        pyInsert_append _ a _ (by intro y hy; have := sTAX y hy; omega),
        pyInsert_eq_cons _ a (by intro y hy; have := sNONE y hy; omega)]
      rw [labFilter_cons, labFilter_cons, labFilter_cons, labFilter_cons,
        if_neg (by rw [hl]; exact fun h => by cases h),
        if_neg (by rw [hl]; exact fun h => by cases h),
        if_neg (by rw [hl]; exact fun h => by cases h), if_pos hl]
    · cases lbl with
      | total_due =>
        have ha : score_item a = -110 := by rw [score_item_eq, hl]
        rw [pyInsert_eq_cons _ a (by
          intro y hy
          rcases List.mem_append.mp hy with h | h
          · have := sTD y h; omega
          rcases List.mem_append.mp h with h | h
          · have := sSUB y h; omega
          rcases List.mem_append.mp h with h | h
          · have := sTAX y h; omega
          · have := sNONE y h; omega)]
        rw [labFilter_cons, labFilter_cons, labFilter_cons, labFilter_cons,
          if_pos hl, if_neg (by rw [hl]; exact fun h => by cases h),
          if_neg (by rw [hl]; exact fun h => by cases h),
          if_neg (by rw [hl]; exact fun h => by cases h)]
        simp
      | subtotal =>
        have ha : score_item a = -100 := by rw [score_item_eq, hl]
        rw [pyInsert_append _ a _ (by intro y hy; have := sTD y hy; omega),
          pyInsert_eq_cons _ a (by
            intro y hy
            rcases List.mem_append.mp hy with h | h
            · have := sSUB y h; omega
            rcases List.mem_append.mp h with h | h
            · have := sTAX y h; omega
            · have := sNONE y h; omega)]
        rw [labFilter_cons, labFilter_cons, labFilter_cons, labFilter_cons,
          if_neg (by rw [hl]; exact fun h => by cases h), if_pos hl,
          if_neg (by rw [hl]; exact fun h => by cases h),
          if_neg (by rw [hl]; exact fun h => by cases h)]
        simp
      | tax =>
        have ha : score_item a = -90 := by rw [score_item_eq, hl]
        rw [pyInsert_append _ a _ (by intro y hy; have := sTD y hy; omega),
          pyInsert_append _ a _ (by intro y hy; have := sSUB y hy; omega),
          pyInsert_eq_cons _ a (by
            intro y hy
            rcases List.mem_append.mp hy with h | h
            · have := sTAX y h; omega
            · have := sNONE y h; omega)]
        rw [labFilter_cons, labFilter_cons, labFilter_cons, labFilter_cons,
          if_neg (by rw [hl]; exact fun h => by cases h),
          if_neg (by rw [hl]; exact fun h => by cases h), if_pos hl,
          if_neg (by rw [hl]; exact fun h => by cases h)]
        simp

/-- A nonempty list always has a last element. -/
theorem getLast?_cons_isSome {α : Type} (b : α) (t : List α) :
    ∃ y, (b :: t).getLast? = some y := by
  induction t generalizing b with
  | nil => exact ⟨b, rfl⟩
  | cons c t ih =>
    obtain ⟨y, hy⟩ := ih c
    exact ⟨y, by rw [List.getLast?_cons_cons, hy]⟩

/-- Folding an option-update chooser: the result is the last selected
element, or the start value when none is selected. -/
theorem foldl_overwrite {σ α β : Type} (f : σ → α → σ) (sel : α → Bool) (g : α → β)
    (get : σ → β) (hf : ∀ s a, get (f s a) = if sel a then g a else get s) :
    ∀ (l : List α) (s : σ), get (l.foldl f s) =
      match (l.filter sel).getLast? with
      | some a => g a
      | none => get s := by
  intro l
  induction l with
  | nil => intro s; rfl
  | cons a l ih =>
    intro s
    rw [List.foldl_cons, ih, List.filter_cons]
    by_cases ha : sel a = true
    · rw [if_pos ha]
      rcases hfl : (l.filter sel) with _ | ⟨b, t⟩
      · simp [hf s a, ha]
      · obtain ⟨y, hy⟩ := getLast?_cons_isSome b t
        rw [List.getLast?_cons_cons, hy]
    · rw [if_neg ha]
      rcases hfl : (l.filter sel) with _ | ⟨b, t⟩
      · simp only [List.getLast?_nil]
        rw [hf s a, if_neg ha]
      · rfl

/-- Folding an append-accumulator: the result is the start value followed by
the images of the selected elements, in order. -/
theorem foldl_accumulate {σ α β : Type} (f : σ → α → σ) (sel : α → Bool) (g : α → β)
    (get : σ → List β) (hf : ∀ s a, get (f s a) = if sel a then get s ++ [g a] else get s) :
    ∀ (l : List α) (s : σ), get (l.foldl f s) = get s ++ (l.filter sel).map g := by
  intro l
  induction l with
  | nil => intro s; simp
  | cons a l ih =>
    intro s
    rw [List.foldl_cons, ih, List.filter_cons]
    by_cases ha : sel a = true
    · rw [if_pos ha, hf s a, if_pos ha]
      simp
    · rw [if_neg ha, hf s a, if_neg ha]

theorem totalsAssign_total_due (l : List Cand) :
    (totalsAssign l).total_due =
      match (labFilter l (some .total_due)).getLast? with
      | some a => some a.amount
      | none => none := by
  unfold totalsAssign labFilter
  have h := foldl_overwrite totalsStep (fun a => decide (a.label = some .total_due))
    (fun a => some a.amount) Totals.total_due
    (by
      intro s a
      rcases h : a.label with _ | lbl
      · simp [totalsStep, h]
      · cases lbl <;> simp [totalsStep, h])
    l ⟨none, none, none⟩
  rw [h]
  cases (List.filter (fun a => decide (a.label = some Lbl.total_due)) l).getLast? <;> rfl

theorem totalsAssign_subtotal (l : List Cand) :
    (totalsAssign l).subtotal =
      match (labFilter l (some .subtotal)).getLast? with
      | some a => some a.amount
      | none => none := by
  unfold totalsAssign labFilter
  have h := foldl_overwrite totalsStep (fun a => decide (a.label = some .subtotal))
    (fun a => some a.amount) Totals.subtotal
    (by
      intro s a
      rcases h : a.label with _ | lbl
      · simp [totalsStep, h]
      · cases lbl <;> simp [totalsStep, h])
    l ⟨none, none, none⟩
  rw [h]
  cases (List.filter (fun a => decide (a.label = some Lbl.subtotal)) l).getLast? <;> rfl

theorem totalsAssign_tax (l : List Cand) :
    (totalsAssign l).tax =
      match (labFilter l (some .tax)).getLast? with
      | some a => some a.amount
      | none => none := by
  unfold totalsAssign labFilter
  have h := foldl_overwrite totalsStep (fun a => decide (a.label = some .tax))
    (fun a => some a.amount) Totals.tax
    (by
      intro s a
      rcases h : a.label with _ | lbl
      · simp [totalsStep, h]
      · cases lbl <;> simp [totalsStep, h])
    l ⟨none, none, none⟩
  rw [h]
  cases (List.filter (fun a => decide (a.label = some Lbl.tax)) l).getLast? <;> rfl

/-- The head of the descending stable sort by absolute amount is a maximum of
the list. -/
theorem pySortDescAbs_head (l : List Cand) (hl : l ≠ []) :
    ∃ c t, pySortBy (fun y x => |x.amount| < |y.amount|) l = c :: t ∧ c ∈ l ∧
      ∀ x ∈ l, |x.amount| ≤ |c.amount| := by
  induction l with
  | nil => exact absurd rfl hl
  | cons a l ih =>
    rcases l with _ | ⟨b, l2⟩
    · exact ⟨a, [], rfl, List.mem_cons_self a [], by
        intro x hx
        rcases List.mem_cons.mp hx with h | h
        · exact h ▸ le_refl _
        · exact absurd h (List.not_mem_nil x)⟩
    · obtain ⟨c, t, hsort, hc, hmax⟩ := ih (by simp)
      rw [pySortBy, hsort, pyInsert]
      split
      · refine ⟨c, pyInsert _ a t, rfl, List.mem_cons_of_mem a hc, ?_⟩
        intro x hx
        rcases List.mem_cons.mp hx with h | h
        · subst h; exact le_of_lt (by assumption)
        · exact hmax x h
      · refine ⟨a, c :: t, rfl, List.mem_cons_self a _, ?_⟩
        intro x hx
        rcases List.mem_cons.mp hx with h | h
        · exact h ▸ le_refl _
        · exact le_trans (hmax x h) (not_lt.mp (by assumption))

theorem dateStep_issue (text : Chars) (st : DateLabels) (sp : Nat × Nat) :
    (dateStep text st sp).issue_date =
      if selIssue text sp then isoOf text sp else st.issue_date := by
  cases hA : containsSub "issue".data (dateWindow text sp.1 sp.2) <;>
  cases hB : containsSub "issued".data (dateWindow text sp.1 sp.2) <;>
  cases hC : containsSub "due".data (dateWindow text sp.1 sp.2) <;>
  cases hD : containsSub "delivery".data (dateWindow text sp.1 sp.2) <;>
  cases hE : containsSub "deliv".data (dateWindow text sp.1 sp.2) <;>
  simp [dateStep, selIssue, isoOf, hA, hB, hC, hD, hE]

theorem dateStep_due (text : Chars) (st : DateLabels) (sp : Nat × Nat) :
    (dateStep text st sp).due_date =
      if selDue text sp then isoOf text sp else st.due_date := by
  cases hA : containsSub "issue".data (dateWindow text sp.1 sp.2) <;>
  cases hB : containsSub "issued".data (dateWindow text sp.1 sp.2) <;>
  cases hC : containsSub "due".data (dateWindow text sp.1 sp.2) <;>
  cases hD : containsSub "delivery".data (dateWindow text sp.1 sp.2) <;>
  cases hE : containsSub "deliv".data (dateWindow text sp.1 sp.2) <;>
  simp [dateStep, selDue, selIssue, isoOf, hA, hB, hC, hD, hE]

theorem dateStep_delivery (text : Chars) (st : DateLabels) (sp : Nat × Nat) :
    (dateStep text st sp).delivery_date =
      if selDeliv text sp then isoOf text sp else st.delivery_date := by
  cases hA : containsSub "issue".data (dateWindow text sp.1 sp.2) <;>
  cases hB : containsSub "issued".data (dateWindow text sp.1 sp.2) <;>
  cases hC : containsSub "due".data (dateWindow text sp.1 sp.2) <;>
  cases hD : containsSub "delivery".data (dateWindow text sp.1 sp.2) <;>
  cases hE : containsSub "deliv".data (dateWindow text sp.1 sp.2) <;>
  simp [dateStep, selDeliv, selIssue, isoOf, hA, hB, hC, hD, hE]

theorem dateStep_other (text : Chars) (st : DateLabels) (sp : Nat × Nat) :
    (dateStep text st sp).other_dates =
      if selOther text sp then st.other_dates ++ [isoOf text sp] else st.other_dates := by
  cases hA : containsSub "issue".data (dateWindow text sp.1 sp.2) <;>
  cases hB : containsSub "issued".data (dateWindow text sp.1 sp.2) <;>
  cases hC : containsSub "due".data (dateWindow text sp.1 sp.2) <;>
  cases hD : containsSub "delivery".data (dateWindow text sp.1 sp.2) <;>
  cases hE : containsSub "deliv".data (dateWindow text sp.1 sp.2) <;>
  simp [dateStep, selOther, selDeliv, selDue, selIssue, isoOf, hA, hB, hC, hD, hE]

/-- Every candidate the scan loop emits is at least 3 in magnitude, or
labeled, or carries a currency (the magnitude filter). -/
theorem candOfMatch_filter {lines : List Chars} {i : Nat} {ln : Chars}
    {s e : Nat} {caps : Caps} {c : Cand}
    (h : candOfMatch lines i ln s e caps = some c) :
    3 ≤ |c.amount| ∨ c.label ≠ none ∨ c.currency ≠ none := by
  simp only [candOfMatch] at h
  split at h
  · exact absurd h (by simp)
  · split at h
    · exact absurd h (by simp)
    · split at h
      · exact absurd h (by simp)
      · rename_i hguard
        rw [Option.some.injEq] at h
        subst h
        rw [not_and_or, not_and_or] at hguard
        rcases hguard with hg | hg | hg
        · exact Or.inl (not_lt.mp hg)
        · exact Or.inr (Or.inl hg)
        · exact Or.inr (Or.inr hg)

theorem itemOf_amount (a : Cand) : (itemOf a).amount = a.amount := rfl

theorem itemOf_currency (a : Cand) : (itemOf a).currency = a.currency := rfl

theorem itemOf_label (a : Cand) : (itemOf a).label = a.label := rfl

/-- Every item of the output `amounts` list descends from a candidate emitted
by the scan loop. -/
theorem mem_getAmounts_found {text : String} {it : Item}
    (h : it ∈ getAmounts (extract_fields text)) :
    ∃ a, a ∈ find_amounts_found (pythonStrip text.data) ∧ it = itemOf a := by
  by_cases ht : pythonStrip text.data = []
  · rw [extract_fields] at h
    rw [if_pos ht] at h
    exact absurd h (List.not_mem_nil it)
  · rw [extract_fields, if_neg ht] at h
    have h2 : it ∈ (clean_amounts (pythonStrip text.data)).map itemOf :=
      mem_pythonDedupBy itemKey it _ [] h
    obtain ⟨a, ha, hit⟩ := List.mem_map.mp h2
    refine ⟨a, ?_, hit.symm⟩
    have h3 : a ∈ find_amounts_with_context (pythonStrip text.data) :=
      (List.mem_filter.mp ha).1
    have h4 : a ∈ find_amounts_dedup (pythonStrip text.data) :=
      (mem_pySortBy _ a _).mp h3
    exact mem_pythonDedupBy candKey a _ [] h4

/-- A candidate of the scan output satisfies the magnitude filter. -/
theorem found_filter {t : Chars} {a : Cand} (h : a ∈ find_amounts_found t) :
    3 ≤ |a.amount| ∨ a.label ≠ none ∨ a.currency ≠ none := by
  unfold find_amounts_found at h
  obtain ⟨p, _, hp⟩ := List.mem_flatMap.mp h
  obtain ⟨m, _, hm⟩ := List.mem_filterMap.mp hp
  exact candOfMatch_filter hm

theorem map_if_dot_id (s : Chars) :
    s.map (fun c => if c = '.' then '.' else c) = s := by
  have : (fun c : Char => if c = '.' then '.' else c) = id := by
    funext c
    by_cases h : c = '.'
    · simp [h]
    · simp [h]
  rw [this, List.map_id]

theorem map_comma_of_not_contains {s : Chars} (h : s.contains ',' = false) :
    s.map (fun c => if c = ',' then '.' else c) = s := by
  induction s with
  | nil => rfl
  | cons c cs ih =>
    rw [List.contains_cons] at h
    rcases Bool.or_eq_false_iff.mp h with ⟨h1, h2⟩
    rw [List.map_cons, ih h2, if_neg (fun hc => by simp [hc] at h1)]

/-! ## Claim theorems -/

/-- C1 (amended): `extract_fields` is a total function (the embedding is
total, so no exception can be raised), and for every input whose stripped
text is nonempty it returns the structurally complete record carrying the
five fields vendor, invoice, dates, amounts, totals; a blank input instead
returns the empty dict, which carries no fields (see the counterexample). -/
theorem claim_C1 (text : String) (h : pythonStrip text.data ≠ []) :
    ∃ r, extract_fields text = .record r := by
  rw [extract_fields, if_neg h]
  exact ⟨_, rfl⟩

/-- C1, counterexample to the claim as stated: on the empty string the
function returns the empty dict `{}`, not a structurally complete record
containing the five fields. -/
theorem claim_C1_counterexample : isRecord (extract_fields "") = false := rfl

theorem claim_C1_witness :
    pythonStrip "x".data ≠ [] ∧ ∃ r, extract_fields "x" = .record r :=
  ⟨by decide, claim_C1 "x" (by decide)⟩

/-- C2: an input that is empty or consists only of whitespace yields the
empty record: every field is absent (the getters all return the absent or
empty value), and the function is total, so no error is signalled. -/
theorem claim_C2 (text : String) (h : ∀ c ∈ text.data, pySpaceChar c = true) :
    extract_fields text = .emptyDict ∧
    getVendor (extract_fields text) = none ∧
    getInvoice (extract_fields text) = none ∧
    getDates (extract_fields text) = none ∧
    getAmounts (extract_fields text) = [] ∧
    getTotals (extract_fields text) = none := by
  have he : extract_fields text = .emptyDict := by
    rw [extract_fields, if_pos (pythonStrip_eq_nil_of_all h)]
  rw [he]
  exact ⟨rfl, rfl, rfl, rfl, rfl, rfl⟩

theorem claim_C2_witness :
    (∀ c ∈ (" \t ".data : Chars), pySpaceChar c = true) ∧
    (extract_fields " \t " = .emptyDict ∧
      getVendor (extract_fields " \t ") = none ∧
      getInvoice (extract_fields " \t ") = none ∧
      getDates (extract_fields " \t ") = none ∧
      getAmounts (extract_fields " \t ") = [] ∧
      getTotals (extract_fields " \t ") = none) :=
  ⟨by decide, claim_C2 " \t " (by decide)⟩

/-- C4: whenever at least one amount candidate survives filtering,
`find_totals` populates `total_due`; and if no surviving candidate is labeled
total_due, it equals the amount of a candidate of largest absolute value
among all surviving candidates. -/
theorem claim_C4 (l : List Cand) (hl : l ≠ []) :
    (find_totals l).total_due ≠ none ∧
    ((∀ c ∈ l, c.label ≠ some .total_due) →
      ∃ c ∈ l, (find_totals l).total_due = some c.amount ∧
        ∀ x ∈ l, |x.amount| ≤ |c.amount|) := by
  constructor
  · by_cases hTD : (totalsAssign l).total_due = none
    · obtain ⟨c, t, hsort, hc, hmax⟩ := pySortDescAbs_head l hl
      simp only [find_totals]
      rw [if_pos ⟨hTD, hl⟩, hsort]
      simp
    · simp only [find_totals]
      rw [if_neg (fun hh => hTD hh.1)]
      exact hTD
  · intro hno
    have hfilter : labFilter l (some .total_due) = [] := by
      unfold labFilter
      rw [List.filter_eq_nil_iff]
      intro c hc
      simpa using hno c hc
    have hTD : (totalsAssign l).total_due = none := by
      rw [totalsAssign_total_due, hfilter]
      rfl
    obtain ⟨c, t, hsort, hc, hmax⟩ := pySortDescAbs_head l hl
    refine ⟨c, hc, ?_, hmax⟩
    simp only [find_totals]
    rw [if_pos ⟨hTD, hl⟩, hsort]
    rfl

theorem claim_C4_witness :
    ∃ c ∈ ([⟨5, none, ['5'], [], [], none⟩] : List Cand),
      (find_totals [⟨5, none, ['5'], [], [], none⟩]).total_due = some c.amount ∧
      ∀ x ∈ ([⟨5, none, ['5'], [], [], none⟩] : List Cand),
        |x.amount| ≤ |c.amount| :=
  (claim_C4 [⟨5, none, ['5'], [], [], none⟩] (by decide)).2 (by decide)

/-- C5 (amended): the sorted candidate list places the labeled candidates
first in the priority order total_due, then subtotal, then tax (the claim
stated tax before subtotal; the counterexample shows that order is wrong),
followed by the unlabeled candidates in their original scan order. -/
theorem claim_C5 (text : Chars) :
    find_amounts_with_context text =
      labFilter (find_amounts_dedup text) (some .total_due) ++
      labFilter (find_amounts_dedup text) (some .subtotal) ++
      labFilter (find_amounts_dedup text) (some .tax) ++
      labFilter (find_amounts_dedup text) none :=
  pySort_label_classes (find_amounts_dedup text)

/-- C7: whenever both the day-first and the month-first parse succeed and
disagree, the resolver picks the day-first parse (the ISO branch, the
first-group-over-12 branch, and the default all return `dt1`); in
particular the ISO span 2025-12-01 resolves to 2025-12-01. -/
theorem claim_C7 :
    (∀ (raw : Chars) (d1 d2 : Date), d1 ≠ d2 →
      chooseDate raw (some d1) (some d2) = some d1) ∧
    (parse_dates_and_labels "2025-12-01".data).other_dates =
      [some "2025-12-01".data] := by
  constructor
  · intro raw d1 d2 hne
    simp only [chooseDate]
    rw [if_neg hne]
    split
    · rfl
    · rcases hp : digitRuns raw with _ | ⟨p, ps⟩ <;> simp
  · decide

theorem claim_C7_witness :
    chooseDate "01/02/2025".data (some ⟨2025, 2, 1⟩) (some ⟨2025, 1, 2⟩) =
      some ⟨2025, 2, 1⟩ :=
  claim_C7.1 "01/02/2025".data ⟨2025, 2, 1⟩ ⟨2025, 1, 2⟩ (by decide)

/-- C8: every line item of the output amounts list has absolute amount at
least 3, or a non-absent label, or a currency marker; an unlabeled,
currency-less candidate below 3 in magnitude never reaches the result. -/
theorem claim_C8 (text : String) (it : Item)
    (h : it ∈ getAmounts (extract_fields text)) :
    3 ≤ |it.amount| ∨ it.label ≠ none ∨ it.currency ≠ none := by
  obtain ⟨a, ha, hit⟩ := mem_getAmounts_found h
  have hp := found_filter ha
  rw [hit, itemOf_amount, itemOf_label, itemOf_currency]
  exact hp

/-- C10: with duplicate labels, each later labeled candidate overwrites the
earlier assignment, so each totals field comes from the last candidate in the
list carrying that label; consequently `subtotal` can differ from the first
subtotal amount, as the concrete two-subtotal list shows. -/
theorem claim_C10 :
    (∀ (l : List Cand) (c : Cand),
      (labFilter l (some .subtotal)).getLast? = some c →
      (find_totals l).subtotal = some c.amount) ∧
    (∀ (l : List Cand) (c : Cand),
      (labFilter l (some .tax)).getLast? = some c →
      (find_totals l).tax = some c.amount) ∧
    (∀ (l : List Cand) (c : Cand),
      (labFilter l (some .total_due)).getLast? = some c →
      (find_totals l).total_due = some c.amount) ∧
    ((find_totals
        [⟨100, none, [], [], [], some .subtotal⟩,
         ⟨200, none, [], [], [], some .subtotal⟩]).subtotal = some 200 ∧
      (200 : ℚ) ≠ 100) := by
  refine ⟨?_, ?_, ?_, by decide⟩
  · intro l c h
    have hsub : (totalsAssign l).subtotal = some c.amount := by
      rw [totalsAssign_subtotal, h]
    simp only [find_totals]
    split
    · exact hsub
    · exact hsub
  · intro l c h
    have htax : (totalsAssign l).tax = some c.amount := by
      rw [totalsAssign_tax, h]
    simp only [find_totals]
    split
    · exact htax
    · exact htax
  · intro l c h
    have htd : (totalsAssign l).total_due = some c.amount := by
      rw [totalsAssign_total_due, h]
    simp only [find_totals]
    rw [if_neg (fun hh => by rw [htd] at hh; exact Option.noConfusion hh.1)]
    exact htd

theorem claim_C10_witness :
    (find_totals [⟨7, none, [], [], [], some .total_due⟩]).total_due =
      some (7 : ℚ) :=
  claim_C10.2.2.1 [⟨7, none, [], [], [], some .total_due⟩]
    ⟨7, none, [], [], [], some .total_due⟩ (by decide)

/-- C3: the normalization policy of `parse_amount_text` agrees for every
token with the policy the spec states (`parse_amount_spec`, the last of the
two separators is the decimal point, a lone comma is a thousands separator
exactly when the token matches the comma-three-digits-boundary pattern), and
the four quoted examples evaluate as claimed, while a conversion failure
yields an absent value rather than an error. -/
theorem claim_C3 :
    (∀ s : Chars, parse_amount_text s = parse_amount_spec s) ∧
    parse_amount_text "1,234.56".data = some (1234.56 : ℚ) ∧
    parse_amount_text "1.234,56".data = some (1234.56 : ℚ) ∧
    parse_amount_text "2,500".data = some (2500 : ℚ) ∧
    parse_amount_text "3,5".data = some (3.5 : ℚ) ∧
    parse_amount_text "12.34.56".data = none := by
  refine ⟨?_, ?_, ?_, by decide, ?_, by decide⟩
  case refine_2 =>
    rw [show (1234.56 : ℚ) = mkRat 123456 100 by rw [Rat.mkRat_eq_div]; norm_num]
    decide
  case refine_3 =>
    rw [show (1234.56 : ℚ) = mkRat 123456 100 by rw [Rat.mkRat_eq_div]; norm_num]
    decide
  case refine_4 =>
    rw [show (3.5 : ℚ) = mkRat 35 10 by rw [Rat.mkRat_eq_div]; norm_num]
    decide
  intro s
  simp only [parse_amount_text, parse_amount_spec]
  by_cases h0 : s = []
  · rw [if_pos h0, if_pos h0]
  · rw [if_neg h0, if_neg h0]
    by_cases hcomma :
        (s.filter (fun c => ¬(c = '\u00A0' ∨ c = ' '))).contains ',' = true
    · by_cases hdot :
          (s.filter (fun c => ¬(c = '\u00A0' ∨ c = ' '))).contains '.' = true
      · rw [if_pos (And.intro hcomma hdot), if_pos (And.intro hcomma hdot)]
        by_cases hlt : lastIdxOf (s.filter (fun c => ¬(c = '\u00A0' ∨ c = ' '))) ',' <
            lastIdxOf (s.filter (fun c => ¬(c = '\u00A0' ∨ c = ' '))) '.'
        · rw [if_pos hlt, if_pos hlt, sepSubst, map_if_dot_id]
        · rw [if_neg hlt, if_neg hlt, sepSubst]
      · have hnot :
            ¬((s.filter (fun c => ¬(c = '\u00A0' ∨ c = ' '))).contains ',' = true ∧
              (s.filter (fun c => ¬(c = '\u00A0' ∨ c = ' '))).contains '.' = true) :=
          fun hand => hdot hand.2
        rw [if_neg hnot, if_neg hnot, if_pos hcomma]
        by_cases hs :
            (reSearch thousandsRE
              (s.filter (fun c => ¬(c = '\u00A0' ∨ c = ' ')))).isSome = true
        · rw [if_pos (And.intro hcomma hs), if_pos hs]
        · have hnot2 :
              ¬((s.filter (fun c => ¬(c = '\u00A0' ∨ c = ' '))).contains ',' = true ∧
                (reSearch thousandsRE
                  (s.filter (fun c => ¬(c = '\u00A0' ∨ c = ' ')))).isSome = true) :=
            fun hand => hs hand.2
          rw [if_neg hnot2, if_neg hs]
    · have hc : (s.filter (fun c => ¬(c = '\u00A0' ∨ c = ' '))).contains ',' = false := by
        simpa using hcomma
      have hnot1 :
          ¬((s.filter (fun c => ¬(c = '\u00A0' ∨ c = ' '))).contains ',' = true ∧
            (s.filter (fun c => ¬(c = '\u00A0' ∨ c = ' '))).contains '.' = true) :=
        fun hand => hcomma hand.1
      have hnot2 :
          ¬((s.filter (fun c => ¬(c = '\u00A0' ∨ c = ' '))).contains ',' = true ∧
            (reSearch thousandsRE
              (s.filter (fun c => ¬(c = '\u00A0' ∨ c = ' ')))).isSome = true) :=
        fun hand => hcomma hand.1
      rw [if_neg hnot1, if_neg hnot1, if_neg hnot2, if_neg hcomma,
        map_comma_of_not_contains hc]

/-- C5, counterexample to the claim as stated: on a document carrying a
subtotal line before a tax line, the output is subtotal-then-tax, not the
claimed priority order total_due, tax, subtotal (`c5ClaimOrder`). -/
theorem claim_C5_counterexample :
    find_amounts_with_context "subtotal 7\ntax 5".data ≠
      c5ClaimOrder "subtotal 7\ntax 5".data := by decide

/-- C6 (amended): for each of the three date-label slots, the LAST date match
whose context window selects that slot determines its value — later matches
overwrite earlier assignments rather than being ignored — while the
unselected matches accumulate in `other_dates` in order. -/
theorem claim_C6 (text : Chars) :
    ((parse_dates_and_labels text).issue_date =
      match ((dateSpans text).filter (selIssue text)).getLast? with
      | some sp => isoOf text sp
      | none => none) ∧
    ((parse_dates_and_labels text).due_date =
      match ((dateSpans text).filter (selDue text)).getLast? with
      | some sp => isoOf text sp
      | none => none) ∧
    ((parse_dates_and_labels text).delivery_date =
      match ((dateSpans text).filter (selDeliv text)).getLast? with
      | some sp => isoOf text sp
      | none => none) ∧
    ((parse_dates_and_labels text).other_dates =
      ((dateSpans text).filter (selOther text)).map (isoOf text)) := by
  refine ⟨?_, ?_, ?_, ?_⟩
  · rw [parse_dates_and_labels,
      foldl_overwrite (dateStep text) (selIssue text) (isoOf text)
        DateLabels.issue_date (dateStep_issue text) (dateSpans text) ⟨none, none, none, []⟩]
    cases ((dateSpans text).filter (selIssue text)).getLast? <;> rfl
  · rw [parse_dates_and_labels,
      foldl_overwrite (dateStep text) (selDue text) (isoOf text)
        DateLabels.due_date (dateStep_due text) (dateSpans text) ⟨none, none, none, []⟩]
    cases ((dateSpans text).filter (selDue text)).getLast? <;> rfl
  · rw [parse_dates_and_labels,
      foldl_overwrite (dateStep text) (selDeliv text) (isoOf text)
        DateLabels.delivery_date (dateStep_delivery text) (dateSpans text) ⟨none, none, none, []⟩]
    cases ((dateSpans text).filter (selDeliv text)).getLast? <;> rfl
  · rw [parse_dates_and_labels,
      foldl_accumulate (dateStep text) (selOther text) (isoOf text)
        DateLabels.other_dates (dateStep_other text) (dateSpans text) ⟨none, none, none, []⟩]
    rfl

/-- C6, counterexample to the claim as stated: both matched dates carry
"due" in their windows; the claim says the first (01/02/2025, resolving to
2025-02-01) wins, but the code lets the second overwrite, so the slot holds
2025-04-03. -/
theorem claim_C6_counterexample :
    (dateSpans "due 01/02/2025 due 03/04/2025".data).map
        (fun sp => sliceL "due 01/02/2025 due 03/04/2025".data sp.1 sp.2) =
      ["01/02/2025".data, "03/04/2025".data] ∧
    selDue "due 01/02/2025 due 03/04/2025".data (4, 14) = true ∧
    isoOf "due 01/02/2025 due 03/04/2025".data (4, 14) = some "2025-02-01".data ∧
    (parse_dates_and_labels "due 01/02/2025 due 03/04/2025".data).due_date =
      some "2025-04-03".data ∧
    (parse_dates_and_labels "due 01/02/2025 due 03/04/2025".data).due_date ≠
      some "2025-02-01".data := by decide

theorem claim_C8_witness :
    3 ≤ |(⟨100, none, "100".data, some "Fee:".data, none, "Fee: 100".data⟩ : Item).amount| ∨
    (⟨100, none, "100".data, some "Fee:".data, none, "Fee: 100".data⟩ : Item).label ≠ none ∨
    (⟨100, none, "100".data, some "Fee:".data, none, "Fee: 100".data⟩ : Item).currency ≠ none :=
  claim_C8 "Fee: 100"
    ⟨100, none, "100".data, some "Fee:".data, none, "Fee: 100".data⟩ (by decide)

/-- C9: evaluation of the extractor at the failing input.  A line holding a
bare 10-digit phone number and no currency is claimed to contribute no
amount candidate; the code instead tokenizes the digit run into three-digit
chunks, each of which passes every noise filter, so three currency-less
candidates survive into the output and even populate the total. -/
theorem claim_C9_bug :
    (getAmounts (extract_fields "Phone: 9876543210")).map Item.amount =
      [987, 654, 321] ∧
    getTotals (extract_fields "Phone: 9876543210") = some ⟨none, none, some 987⟩ ∧
    ∀ it ∈ getAmounts (extract_fields "Phone: 9876543210"), it.currency = none := by
  decide
